import Mathlib

/-!
Shallow embedding of the citrea-analytics scanner (`analyze.ts`).

The repository ships two variants of the scan-and-checkpoint loop:

* the standard variant (`analyze.ts`, first copy): per-log enrichment wrapped
  in try/catch, window rows inserted through `db.transaction`;
* the enhanced variant (`analyze-enhanced.ts`): per-log `insertLog.run` /
  `insertSwap.run` executed directly inside `Promise.all`, with event decoding.

SQLite is modelled as an explicit `Db` value; the remote node (viem client) is
an oracle bundle `Chain`; a prepared statement that throws is modelled by a
failure predicate on the row being inserted.  Machine integers in the source
are JS `bigint` / SQLite INTEGER, embedded as `Nat` (all quantities involved
are non-negative block heights, timestamps and amounts).
-/

namespace CitreaAnalytics

/-- Row of the `logs` table (the spec's TransactionRecord): `tx_hash` is the
primary key; `gas_used` is stored as decimal text. -/
structure LogRow where
  tx_hash : String
  block_number : Nat
  from_address : String
  gas_used : String
  timestamp : Nat
deriving DecidableEq

/-- Row of the `swap_events` table: `tx_hash` is the primary key; amounts and
addresses stored as text. -/
structure SwapRow where
  tx_hash : String
  block_number : Nat
  sender : String
  amount_in : String
  amount_out : String
  token_in : String
  token_out : String
  destination : String
  timestamp : Nat
deriving DecidableEq

/-- The SQLite database: the `logs`, `swap_events` and `meta` tables. -/
structure Db where
  logs : List LogRow
  swaps : List SwapRow
  meta : List (String × String)
deriving DecidableEq

/-- `getMeta`: `SELECT value FROM meta WHERE key = ?` (key is the primary
key, so the first match is the row). -/
def getMeta (db : Db) (key : String) : Option String :=
  (db.meta.find? (fun kv => kv.fst == key)).map (fun kv => kv.snd)

/-- `setMeta`: `INSERT OR REPLACE INTO meta (key, value) VALUES (?, ?)`. -/
def setMeta (db : Db) (key value : String) : Db :=
  { db with meta := (key, value) :: db.meta.filter (fun kv => kv.fst != key) }

/-- Whether a `logs` row with the given `tx_hash` exists. -/
def logsHasTx (db : Db) (h : String) : Bool :=
  db.logs.any (fun r => r.tx_hash == h)

/-- `INSERT OR IGNORE INTO logs ...`: a duplicate `tx_hash` is a no-op. -/
def insertOrIgnoreLog (db : Db) (r : LogRow) : Db :=
  if logsHasTx db r.tx_hash then db else { db with logs := db.logs ++ [r] }

/-- Whether a `swap_events` row with the given `tx_hash` exists. -/
def swapsHasTx (db : Db) (h : String) : Bool :=
  db.swaps.any (fun r => r.tx_hash == h)

/-- `INSERT OR IGNORE INTO swap_events ...`: a duplicate `tx_hash` is a
no-op. -/
def insertOrIgnoreSwap (db : Db) (r : SwapRow) : Db :=
  if swapsHasTx db r.tx_hash then db else { db with swaps := db.swaps ++ [r] }

/-- A transaction receipt as used by the scanner (`receipt.from`,
`receipt.gasUsed`). -/
structure Receipt where
  from_addr : String
  gasUsed : Nat
deriving DecidableEq

/-- A block header as used by the scanner (`block.timestamp`). -/
structure BlockHeader where
  timestamp : Nat
deriving DecidableEq

/-- A raw log entry (address/topics/data are opaque to the scanner except
through the decode oracle; `data` keeps distinct logs distinguishable). -/
structure RawLog where
  transactionHash : String
  blockNumber : Nat
  data : String
deriving DecidableEq

/-- Arguments of a decoded `Swap` event. -/
structure DecodedArgs where
  sender : String
  amount_in : Nat
  amount_out : Nat
  token_in : String
  token_out : String
  destination : String
deriving DecidableEq

/-- Result of `decodeEventLog`. -/
structure DecodedEvent where
  eventName : String
  args : DecodedArgs
deriving DecidableEq

/-- Oracle bundle for the remote node and the ABI decoder.  `getBlockNumber`
is read once at scan start; `getLogs a b` is the (retry-wrapped) log fetch for
the inclusive range `[a, b]` — `Except.error` models retry exhaustion;
`receiptAndBlock` models the paired `getTransactionReceipt` / `getBlock`
lookups, `Except.error` modelling either lookup throwing; `decodeEventLog`
models viem's decoder, `Except.error` modelling a decode exception (topic
signature mismatch or malformed payload). -/
structure Chain where
  blockNumber : Nat
  getLogs : Nat → Nat → Except Unit (List RawLog)
  receiptAndBlock : RawLog → Except Unit (Receipt × BlockHeader)
  decodeEventLog : RawLog → Except Unit DecodedEvent

/-- JS `.toLowerCase()` on an address string, modelled characterwise (the
same function as `String.map Char.toLower`, written so that it is
kernel-computable). -/
def strLower (s : String) : String := ⟨s.data.map Char.toLower⟩

/-- The TransactionRecord derived from a log and its enrichment data:
`{ tx_hash, block_number, from (lowercased), gasUsed as decimal text,
timestamp }`. -/
def mkLogRow (log : RawLog) (receipt : Receipt) (block : BlockHeader) : LogRow :=
  { tx_hash := log.transactionHash
    block_number := log.blockNumber
    from_address := strLower receipt.from_addr
    gas_used := Nat.repr receipt.gasUsed
    timestamp := block.timestamp }

/-- Standard variant per-log enrichment: the receipt/block lookups are inside
a try/catch that returns `null` on failure (the log is skipped). -/
def deriveRow (ch : Chain) (log : RawLog) : Option LogRow :=
  match ch.receiptAndBlock log with
  | .error _ => none
  | .ok (receipt, block) => some (mkLogRow log receipt block)

/-- One execution of the prepared `logs` insert; `lfail r = true` models the
statement throwing for that row. -/
def runInsertLog (lfail : LogRow → Bool) (db : Db) (r : LogRow) : Except Unit Db :=
  if lfail r then .error () else .ok (insertOrIgnoreLog db r)

/-- The body of the `db.transaction` callback: run the insert for each row in
order, stopping at the first failure. -/
def insertRowsSeq (lfail : LogRow → Bool) (db : Db) : List LogRow → Except Unit Db
  | [] => .ok db
  | r :: rs =>
    match runInsertLog lfail db r with
    | .error e => .error e
    | .ok db2 => insertRowsSeq lfail db2 rs

/-- Failure-free insertion of a list of rows. -/
def insertRows (db : Db) (rows : List LogRow) : Db :=
  rows.foldl insertOrIgnoreLog db

/-- `insertMany` (standard variant): `db.transaction((logs) => ...)` — if any
insert throws, better-sqlite3 rolls the whole transaction back, so the
database is unchanged and the exception propagates (`false`). -/
def insertMany (lfail : LogRow → Bool) (db : Db) (rows : List LogRow) : Db × Bool :=
  match insertRowsSeq lfail db rows with
  | .ok db2 => (db2, true)
  | .error _ => (db, false)

/-- The `endBlock` computation of the while loop:
`currentBlock + BATCH_SIZE > latestBlock ? latestBlock
: currentBlock + BATCH_SIZE - 1n`. -/
def endBlock (currentBlock latestBlock W : Nat) : Nat :=
  if latestBlock < currentBlock + W then latestBlock else currentBlock + W - 1

/-- Standard variant progress report: guarded against a zero denominator. -/
def progressStd (startB endB latestB : Nat) : Nat :=
  let denom := latestB - startB
  if denom = 0 then 100 else ((endB - startB) * 100) / denom

/-- JS `bigint` division: division by zero throws a `RangeError`. -/
def bigintDiv (a b : Nat) : Except Unit Nat :=
  if b = 0 then .error () else .ok (a / b)

/-- Standard variant window body: fetch the logs of the window, enrich each
log (failures skipped), insert the surviving rows inside one transaction.
`false` means the window threw (fetch retries exhausted, or the insert
transaction failed and rolled back) and the scan aborts. -/
def scanWindowStd (ch : Chain) (lfail : LogRow → Bool) (db : Db)
    (fromB toB : Nat) : Db × Bool :=
  match ch.getLogs fromB toB with
  | .error _ => (db, false)
  | .ok logs =>
    if logs.isEmpty then (db, true)
    else
      let validLogData := logs.filterMap (deriveRow ch)
      if validLogData.isEmpty then (db, true)
      else insertMany lfail db validLogData

/-- The SwapRow built by the enhanced variant from a decoded `Swap` event. -/
def mkSwapRow (log : RawLog) (block : BlockHeader) (args : DecodedArgs) : SwapRow :=
  { tx_hash := log.transactionHash
    block_number := log.blockNumber
    sender := strLower args.sender
    amount_in := Nat.repr args.amount_in
    amount_out := Nat.repr args.amount_out
    token_in := strLower args.token_in
    token_out := strLower args.token_out
    destination := strLower args.destination
    timestamp := block.timestamp }

/-- Enhanced variant per-log body (inside `Promise.all`): the receipt/block
lookups and the two `run` calls are NOT wrapped in a per-log try/catch — only
the decode step is.  `false` means this log's processing threw, which rejects
the window's `Promise.all`. -/
def processLogEnh (ch : Chain) (lfail : LogRow → Bool) (sfail : SwapRow → Bool)
    (db : Db) (log : RawLog) : Db × Bool :=
  match ch.receiptAndBlock log with
  | .error _ => (db, false)
  | .ok (receipt, block) =>
    let row := mkLogRow log receipt block
    if lfail row then (db, false)
    else
      let db2 := insertOrIgnoreLog db row
      match ch.decodeEventLog log with
      | .error _ => (db2, true)
      | .ok decoded =>
        if decoded.eventName == "Swap" then
          let srow := mkSwapRow log block decoded.args
          if sfail srow then (db2, false)
          else (insertOrIgnoreSwap db2 srow, true)
        else (db2, true)

/-- Enhanced variant window body: every log of the window is processed (the
settled side effects of `Promise.all`); the window as a whole fails if any
log's processing threw. -/
def scanWindowEnh (ch : Chain) (lfail : LogRow → Bool) (sfail : SwapRow → Bool)
    (db : Db) (fromB toB : Nat) : Db × Bool :=
  match ch.getLogs fromB toB with
  | .error _ => (db, false)
  | .ok logs =>
    logs.foldl
      (fun acc log =>
        let r := processLogEnh ch lfail sfail acc.fst log
        (r.fst, acc.snd && r.snd))
      (db, true)

/-- State threaded through the scan: the database plus the list of
`getLogs` block ranges requested so far. -/
structure ScanState where
  db : Db
  requests : List (Nat × Nat)
deriving DecidableEq

/-- Fuel-indexed rendering of the `while (currentBlock <= latestBlock)` loop:
each iteration computes `endBlock`, runs the window step, and either advances
to `endBlock + 1` or aborts.  The fuel `hi + 1 - cur` supplied by the wrappers
is exact whenever the window size is at least 1. -/
def whileScan {σ : Type} (hi W : Nat) (step : Nat → Nat → σ → σ × Bool) :
    Nat → Nat → σ → σ × Bool
  | 0, _, st => (st, true)
  | fuel + 1, cur, st =>
    if hi < cur then (st, true)
    else
      let e := endBlock cur hi W
      let r := step cur e st
      if r.snd then whileScan hi W step fuel (e + 1) r.fst
      else (r.fst, false)

/-- The sequence of windows the loop walks over `[lo, hi]` with window size
`W`. -/
def windowsAux (hi W : Nat) : Nat → Nat → List (Nat × Nat)
  | 0, _ => []
  | fuel + 1, lo =>
    if hi < lo then []
    else (lo, endBlock lo hi W) :: windowsAux hi W fuel (endBlock lo hi W + 1)

/-- The windows generated for the range `[lo, hi]` with window size `W`. -/
def windows (lo hi W : Nat) : List (Nat × Nat) :=
  windowsAux hi W (hi + 1 - lo) lo

/-- Standard variant loop step: request the window, process it, log the
(guarded) progress percentage. -/
def stepStd (ch : Chain) (lfail : LogRow → Bool) (startB latestB : Nat)
    (cur e : Nat) (st : ScanState) : ScanState × Bool :=
  let r := scanWindowStd ch lfail st.db cur e
  let _p := progressStd startB e latestB
  ({ db := r.fst, requests := st.requests ++ [(cur, e)] }, r.snd)

/-- Enhanced variant loop step: request the window, process it, then compute
the progress percentage with an UNGUARDED bigint division by
`latestBlock - startBlock`. -/
def stepEnh (ch : Chain) (lfail : LogRow → Bool) (sfail : SwapRow → Bool)
    (startB latestB : Nat) (cur e : Nat) (st : ScanState) : ScanState × Bool :=
  let r := scanWindowEnh ch lfail sfail st.db cur e
  let st1 : ScanState := { db := r.fst, requests := st.requests ++ [(cur, e)] }
  if r.snd then
    match bigintDiv ((e - startB) * 100) (latestB - startB) with
    | .ok _ => (st1, true)
    | .error _ => (st1, false)
  else (st1, false)

/-- Standard variant scan loop from `cur`. -/
def scanLoopStd (ch : Chain) (lfail : LogRow → Bool) (startB latestB W cur : Nat)
    (st : ScanState) : ScanState × Bool :=
  whileScan latestB W (stepStd ch lfail startB latestB) (latestB + 1 - cur) cur st

/-- Enhanced variant scan loop from `cur`. -/
def scanLoopEnh (ch : Chain) (lfail : LogRow → Bool) (sfail : SwapRow → Bool)
    (startB latestB W cur : Nat) (st : ScanState) : ScanState × Bool :=
  whileScan latestB W (stepEnh ch lfail sfail startB latestB) (latestB + 1 - cur) cur st

/-- Resolution of the scan's start block: `0`, or checkpoint + 1 when
incremental and a checkpoint row exists.  `none` models `BigInt(lastScanned)`
throwing on an unparsable stored value. -/
def resolveStart (db : Db) (incremental : Bool) : Option Nat :=
  if incremental then
    match getMeta db "lastScannedBlock" with
    | some s => s.toNat?.map (fun n => n + 1)
    | none => some 0
  else some 0

/-- `scanLogs` (standard variant): read the head once, resolve the start
block, return early when already up to date, run the windows, and on success
persist the checkpoint once. -/
def scanLogsStd (ch : Chain) (lfail : LogRow → Bool) (W : Nat) (db : Db)
    (incremental : Bool) : ScanState × Bool :=
  let latestBlock := ch.blockNumber
  match resolveStart db incremental with
  | none => ({ db := db, requests := [] }, false)
  | some startBlock =>
    if latestBlock < startBlock then ({ db := db, requests := [] }, true)
    else
      let r := scanLoopStd ch lfail startBlock latestBlock W startBlock
        { db := db, requests := [] }
      if r.snd then
        ({ r.fst with
            db := setMeta r.fst.db "lastScannedBlock" (Nat.repr latestBlock) }, true)
      else r

/-- `scanLogs` (enhanced variant): identical control flow, with the enhanced
window body and the unguarded progress division. -/
def scanLogsEnh (ch : Chain) (lfail : LogRow → Bool) (sfail : SwapRow → Bool)
    (W : Nat) (db : Db) (incremental : Bool) : ScanState × Bool :=
  let latestBlock := ch.blockNumber
  match resolveStart db incremental with
  | none => ({ db := db, requests := [] }, false)
  | some startBlock =>
    if latestBlock < startBlock then ({ db := db, requests := [] }, true)
    else
      let r := scanLoopEnh ch lfail sfail startBlock latestBlock W startBlock
        { db := db, requests := [] }
      if r.snd then
        ({ r.fst with
            db := setMeta r.fst.db "lastScannedBlock" (Nat.repr latestBlock) }, true)
      else r

/-- The numeric value of the persisted checkpoint, when present and
parsable. -/
def checkpointVal (db : Db) : Option Nat :=
  match getMeta db "lastScannedBlock" with
  | some s => s.toNat?
  | none => none

/-!
Decimal round trip: the scanner persists the checkpoint with
`latestBlock.toString()` (modelled by `Nat.repr`) and reads it back with
`BigInt(lastScanned)` (modelled by `String.toNat?`).  We prove
`(Nat.repr n).toNat? = some n` so the read/write pair is exact.
-/

/-- Decimal digit characters of `n`, most significant first (what
`Nat.toDigits 10` produces). -/
def decDigits (n : Nat) : List Char :=
  if _h : n < 10 then [Nat.digitChar n]
  else decDigits (n / 10) ++ [Nat.digitChar (n % 10)]
termination_by n
decreasing_by exact Nat.div_lt_self (by omega) (by omega)

lemma decDigits_lt {n : Nat} (h : n < 10) : decDigits n = [Nat.digitChar n] := by
  rw [decDigits]
  simp [h]

lemma decDigits_ge {n : Nat} (h : 10 ≤ n) :
    decDigits n = decDigits (n / 10) ++ [Nat.digitChar (n % 10)] := by
  rw [decDigits]
  simp [Nat.not_lt.2 h]

lemma toDigitsCore_decDigits :
    ∀ fuel n ds, n < 10 ^ (fuel + 1) →
      Nat.toDigitsCore 10 (fuel + 1) n ds = decDigits n ++ ds := by
  intro fuel
  induction fuel with
  | zero =>
    intro n ds hn
    have h10 : n < 10 := by simpa using hn
    have hdiv : n / 10 = 0 := Nat.div_eq_of_lt h10
    simp only [Nat.toDigitsCore, hdiv, if_pos]
    rw [Nat.mod_eq_of_lt h10, decDigits_lt h10]
    rfl
  | succ fuel ih =>
    intro n ds hn
    by_cases h10 : n < 10
    · have hdiv : n / 10 = 0 := Nat.div_eq_of_lt h10
      simp only [Nat.toDigitsCore, hdiv, if_pos]
      rw [Nat.mod_eq_of_lt h10, decDigits_lt h10]
      rfl
    · have hpos : 0 < n / 10 := Nat.div_pos (Nat.le_of_not_lt h10) (by norm_num)
      have hne0 : ¬n / 10 = 0 := Nat.pos_iff_ne_zero.mp hpos
      have hlt : n / 10 < 10 ^ (fuel + 1) := by
        rw [Nat.div_lt_iff_lt_mul (by norm_num : 0 < 10)]
        calc n < 10 ^ (fuel + 1 + 1) := hn
        _ = 10 ^ (fuel + 1) * 10 := by rw [pow_succ]
      have hstep : Nat.toDigitsCore 10 (fuel + 1 + 1) n ds
          = Nat.toDigitsCore 10 (fuel + 1) (n / 10) (Nat.digitChar (n % 10) :: ds) := by
        conv_lhs => rw [Nat.toDigitsCore]
        simp [hne0]
      rw [hstep, ih (n / 10) _ hlt, decDigits_ge (Nat.le_of_not_lt h10),
        List.append_assoc]
      rfl

lemma toDigits_eq_decDigits (n : Nat) : Nat.toDigits 10 n = decDigits n := by
  have hn : n < 10 ^ (n + 1) :=
    lt_of_lt_of_le (Nat.lt_pow_self (by norm_num) n)
      (Nat.pow_le_pow_right (by norm_num) (Nat.le_succ n))
  simpa using toDigitsCore_decDigits n n [] hn

lemma digitChar_isDigit {k : Nat} (hk : k < 10) : (Nat.digitChar k).isDigit = true := by
  interval_cases k <;> decide

lemma digitChar_sub_48 {k : Nat} (hk : k < 10) : (Nat.digitChar k).toNat - 48 = k := by
  interval_cases k <;> decide

lemma decDigits_ne_nil (n : Nat) : decDigits n ≠ [] := by
  by_cases h : n < 10
  · simp [decDigits_lt h]
  · simp [decDigits_ge (Nat.le_of_not_lt h)]

lemma decDigits_all_isDigit (n : Nat) : ∀ c ∈ decDigits n, c.isDigit = true := by
  induction n using decDigits.induct with
  | case1 n h =>
    rw [decDigits_lt h]
    intro c hc
    rw [List.mem_singleton] at hc
    subst hc
    exact digitChar_isDigit h
  | case2 n h ih =>
    rw [decDigits_ge (Nat.le_of_not_lt h)]
    intro c hc
    rcases List.mem_append.1 hc with h1 | h2
    · exact ih c h1
    · rw [List.mem_singleton] at h2
      subst h2
      exact digitChar_isDigit (Nat.mod_lt _ (by norm_num))

lemma decDigits_foldl (n : Nat) :
    ∀ v, (decDigits n).foldl (fun a c => a * 10 + (c.toNat - 48)) v
      = v * 10 ^ (decDigits n).length + n := by
  induction n using decDigits.induct with
  | case1 n h =>
    intro v
    rw [decDigits_lt h]
    simp [digitChar_sub_48 h]
  | case2 n h ih =>
    intro v
    rw [decDigits_ge (Nat.le_of_not_lt h)]
    rw [List.foldl_append]
    rw [ih v]
    have hmod : n % 10 < 10 := Nat.mod_lt _ (by norm_num)
    simp only [List.foldl_cons, List.foldl_nil, digitChar_sub_48 hmod,
      List.length_append, List.length_cons, List.length_nil, Nat.zero_add]
    have hdm : 10 * (n / 10) + n % 10 = n := Nat.div_add_mod n 10
    have hdm2 : n / 10 * 10 + n % 10 = n := by omega
    calc (v * 10 ^ (decDigits (n / 10)).length + n / 10) * 10 + n % 10
        = v * (10 ^ (decDigits (n / 10)).length * 10) + (n / 10 * 10 + n % 10) := by ring
    _ = v * 10 ^ ((decDigits (n / 10)).length + 1) + n := by rw [hdm2, pow_succ]

/-- Round trip of the checkpoint encoding: parsing back the decimal string the
scanner writes recovers the block height. -/
theorem toNat?_repr (n : Nat) : (Nat.repr n).toNat? = some n := by
  have hdata : (Nat.repr n).data = decDigits n := by
    simp [Nat.repr, toDigits_eq_decDigits, List.asString]
  have hne : Nat.repr n ≠ "" := by
    intro h
    have hx : (Nat.repr n).data = [] := by rw [h]
    rw [hdata] at hx
    exact decDigits_ne_nil n hx
  have hempty : (Nat.repr n).isEmpty = false := by
    rw [Bool.eq_false_iff]
    intro hb
    exact hne ((String.isEmpty_iff _).1 hb)
  have hall : (Nat.repr n).all (fun c => c.isDigit) = true := by
    rw [String.all_eq, hdata, List.all_eq_true]
    exact decDigits_all_isDigit n
  have hnat : (Nat.repr n).isNat = true := by
    simp [String.isNat, hempty, hall]
  rw [String.toNat?, if_pos hnat]
  congr 1
  rw [String.foldl_eq]
  have h48 : ('0').toNat = 48 := rfl
  simp only [h48]
  show (Nat.repr n).data.foldl (fun a c => a * 10 + (c.toNat - 48)) 0 = n
  rw [hdata, decDigits_foldl n 0]
  simp

/-! Loop infrastructure lemmas. -/

lemma endBlock_ge {cur hi W : Nat} (hW : 1 ≤ W) (hcur : cur ≤ hi) :
    cur ≤ endBlock cur hi W := by
  unfold endBlock
  split <;> omega

lemma endBlock_le {cur hi W : Nat} : endBlock cur hi W ≤ hi := by
  unfold endBlock
  split <;> omega

lemma windowsAux_congr {hi W : Nat} (hW : 1 ≤ W) :
    ∀ fuel1 fuel2 lo, hi + 1 - lo ≤ fuel1 → hi + 1 - lo ≤ fuel2 →
      windowsAux hi W fuel1 lo = windowsAux hi W fuel2 lo := by
  intro fuel1
  induction fuel1 with
  | zero =>
    intro fuel2 lo h1 h2
    have hlo : hi < lo := by omega
    cases fuel2 with
    | zero => rfl
    | succ f2 => simp [windowsAux, hlo]
  | succ f1 ih =>
    intro fuel2 lo h1 h2
    cases fuel2 with
    | zero =>
      have hlo : hi < lo := by omega
      simp [windowsAux, hlo]
    | succ f2 =>
      by_cases hlo : hi < lo
      · simp [windowsAux, hlo]
      · have he : lo ≤ endBlock lo hi W := endBlock_ge hW (by omega)
        simp only [windowsAux, if_neg hlo]
        congr 1
        exact ih f2 _ (by omega) (by omega)

lemma windows_exit {lo hi W : Nat} (h : hi < lo) : windows lo hi W = [] := by
  unfold windows
  have h0 : hi + 1 - lo = 0 := by omega
  rw [h0]
  rfl

lemma windows_step {lo hi W : Nat} (hW : 1 ≤ W) (h : lo ≤ hi) :
    windows lo hi W
      = (lo, endBlock lo hi W) :: windows (endBlock lo hi W + 1) hi W := by
  unfold windows
  have hfu : hi + 1 - lo = (hi - lo) + 1 := by omega
  rw [hfu]
  simp only [windowsAux, if_neg (by omega : ¬hi < lo)]
  congr 1
  have he : lo ≤ endBlock lo hi W := endBlock_ge hW h
  exact windowsAux_congr hW (hi - lo) (hi + 1 - (endBlock lo hi W + 1)) _
    (by omega) (le_refl _)

lemma whileScan_congr {σ : Type} {hi W : Nat} (step : Nat → Nat → σ → σ × Bool)
    (hW : 1 ≤ W) :
    ∀ fuel1 fuel2 cur st, hi + 1 - cur ≤ fuel1 → hi + 1 - cur ≤ fuel2 →
      whileScan hi W step fuel1 cur st = whileScan hi W step fuel2 cur st := by
  intro fuel1
  induction fuel1 with
  | zero =>
    intro fuel2 cur st h1 h2
    have hc : hi < cur := by omega
    cases fuel2 with
    | zero => rfl
    | succ f2 => simp [whileScan, hc]
  | succ f1 ih =>
    intro fuel2 cur st h1 h2
    cases fuel2 with
    | zero =>
      have hc : hi < cur := by omega
      simp [whileScan, hc]
    | succ f2 =>
      by_cases hc : hi < cur
      · simp [whileScan, hc]
      · have he : cur ≤ endBlock cur hi W := endBlock_ge hW (by omega)
        simp only [whileScan, if_neg hc]
        by_cases hr : (step cur (endBlock cur hi W) st).snd = true
        · simp only [hr, if_true]
          exact ih f2 _ _ (by omega) (by omega)
        · simp only [Bool.not_eq_true] at hr
          simp [hr]

lemma whileScanTop_exit {σ : Type} {hi W cur : Nat} (step : Nat → Nat → σ → σ × Bool)
    (st : σ) (h : hi < cur) :
    whileScan hi W step (hi + 1 - cur) cur st = (st, true) := by
  have h0 : hi + 1 - cur = 0 := by omega
  rw [h0]
  rfl

lemma whileScanTop_step_true {σ : Type} {hi W cur : Nat}
    (step : Nat → Nat → σ → σ × Bool) (st : σ) (hW : 1 ≤ W) (h : cur ≤ hi)
    (hr : (step cur (endBlock cur hi W) st).snd = true) :
    whileScan hi W step (hi + 1 - cur) cur st
      = whileScan hi W step (hi + 1 - (endBlock cur hi W + 1))
          (endBlock cur hi W + 1) (step cur (endBlock cur hi W) st).fst := by
  have hfu : hi + 1 - cur = (hi - cur) + 1 := by omega
  rw [hfu]
  simp only [whileScan, if_neg (by omega : ¬hi < cur), hr, if_true]
  have he : cur ≤ endBlock cur hi W := endBlock_ge hW h
  exact whileScan_congr step hW (hi - cur) _ _ _ (by omega) (le_refl _)

lemma whileScanTop_step_false {σ : Type} {hi W cur : Nat}
    (step : Nat → Nat → σ → σ × Bool) (st : σ) (h : cur ≤ hi)
    (hr : (step cur (endBlock cur hi W) st).snd = false) :
    whileScan hi W step (hi + 1 - cur) cur st
      = ((step cur (endBlock cur hi W) st).fst, false) := by
  have hfu : hi + 1 - cur = (hi - cur) + 1 := by omega
  rw [hfu]
  simp only [whileScan, if_neg (by omega : ¬hi < cur), hr]
  simp

lemma whileScan_requests {hi W : Nat} (step : Nat → Nat → ScanState → ScanState × Bool)
    (hW : 1 ≤ W)
    (hstep : ∀ cur e st, (step cur e st).fst.requests = st.requests ++ [(cur, e)]) :
    ∀ n cur st, hi + 1 - cur ≤ n →
      (whileScan hi W step (hi + 1 - cur) cur st).snd = true →
      (whileScan hi W step (hi + 1 - cur) cur st).fst.requests
        = st.requests ++ windows cur hi W := by
  intro n
  induction n with
  | zero =>
    intro cur st hn _hs
    have hc : hi < cur := by omega
    rw [whileScanTop_exit _ _ hc, windows_exit hc]
    simp
  | succ n ih =>
    intro cur st hn hs
    by_cases hc : hi < cur
    · rw [whileScanTop_exit _ _ hc, windows_exit hc]
      simp
    · have hc2 : cur ≤ hi := by omega
      have he : cur ≤ endBlock cur hi W := endBlock_ge hW hc2
      by_cases hr : (step cur (endBlock cur hi W) st).snd = true
      · rw [whileScanTop_step_true step st hW hc2 hr] at hs ⊢
        rw [ih _ _ (by omega) hs, hstep, windows_step hW hc2]
        simp
      · rw [Bool.not_eq_true] at hr
        rw [whileScanTop_step_false step st hc2 hr] at hs
        simp at hs

lemma whileScan_dbmeta {hi W : Nat} (step : Nat → Nat → ScanState → ScanState × Bool)
    (hstep : ∀ cur e st, (step cur e st).fst.db.meta = st.db.meta) :
    ∀ fuel cur st,
      (whileScan hi W step fuel cur st).fst.db.meta = st.db.meta := by
  intro fuel
  induction fuel with
  | zero => intro cur st; rfl
  | succ n ih =>
    intro cur st
    by_cases hc : hi < cur
    · simp [whileScan, hc]
    · simp only [whileScan, if_neg hc]
      by_cases hr : (step cur (endBlock cur hi W) st).snd = true
      · simp only [hr, if_true]
        rw [ih, hstep]
      · rw [Bool.not_eq_true] at hr
        simp only [hr]
        simp [hstep]

/-! Preservation and insertion lemmas for the database operations. -/

lemma meta_insertOrIgnoreLog (db : Db) (r : LogRow) :
    (insertOrIgnoreLog db r).meta = db.meta := by
  unfold insertOrIgnoreLog
  split <;> rfl

lemma meta_insertOrIgnoreSwap (db : Db) (r : SwapRow) :
    (insertOrIgnoreSwap db r).meta = db.meta := by
  unfold insertOrIgnoreSwap
  split <;> rfl

lemma meta_insertRows : ∀ (rows : List LogRow) (db : Db),
    (insertRows db rows).meta = db.meta := by
  intro rows
  induction rows with
  | nil => intro db; rfl
  | cons r rs ih =>
    intro db
    show (insertRows (insertOrIgnoreLog db r) rs).meta = db.meta
    rw [ih, meta_insertOrIgnoreLog]

lemma insertRowsSeq_ok {lfail : LogRow → Bool} :
    ∀ (rows : List LogRow) (db db2 : Db),
      insertRowsSeq lfail db rows = .ok db2 → db2 = insertRows db rows := by
  intro rows
  induction rows with
  | nil =>
    intro db db2 h
    simp only [insertRowsSeq] at h
    cases h
    rfl
  | cons r rs ih =>
    intro db db2 h
    simp only [insertRowsSeq, runInsertLog] at h
    by_cases hf : lfail r = true
    · simp [hf] at h
    · rw [Bool.not_eq_true] at hf
      simp only [hf, Bool.false_eq_true, if_false] at h
      exact ih _ _ h

lemma insertRowsSeq_nofail : ∀ (rows : List LogRow) (db : Db),
    insertRowsSeq (fun _ => false) db rows = .ok (insertRows db rows) := by
  intro rows
  induction rows with
  | nil => intro db; rfl
  | cons r rs ih =>
    intro db
    simp only [insertRowsSeq, runInsertLog, Bool.false_eq_true, if_false]
    exact ih _

lemma insertMany_false {lfail : LogRow → Bool} {db : Db} {rows : List LogRow}
    (h : (insertMany lfail db rows).snd = false) :
    (insertMany lfail db rows).fst = db := by
  unfold insertMany at h ⊢
  cases hseq : insertRowsSeq lfail db rows with
  | ok db2 =>
    rw [hseq] at h
    simp at h
  | error e => simp

lemma insertMany_true {lfail : LogRow → Bool} {db : Db} {rows : List LogRow}
    (h : (insertMany lfail db rows).snd = true) :
    (insertMany lfail db rows).fst = insertRows db rows := by
  unfold insertMany at h ⊢
  cases hseq : insertRowsSeq lfail db rows with
  | ok db2 => simpa using insertRowsSeq_ok rows db db2 hseq
  | error e =>
    rw [hseq] at h
    simp at h

lemma meta_insertMany (lfail : LogRow → Bool) (db : Db) (rows : List LogRow) :
    (insertMany lfail db rows).fst.meta = db.meta := by
  cases hr : (insertMany lfail db rows).snd with
  | false => rw [insertMany_false hr]
  | true => rw [insertMany_true hr, meta_insertRows]

lemma meta_scanWindowStd (ch : Chain) (lfail : LogRow → Bool) (db : Db)
    (a b : Nat) : (scanWindowStd ch lfail db a b).fst.meta = db.meta := by
  unfold scanWindowStd
  cases ch.getLogs a b with
  | error e => rfl
  | ok logs =>
    simp only
    split
    · rfl
    · split
      · rfl
      · exact meta_insertMany _ _ _

lemma meta_processLogEnh (ch : Chain) (lfail : LogRow → Bool)
    (sfail : SwapRow → Bool) (db : Db) (log : RawLog) :
    (processLogEnh ch lfail sfail db log).fst.meta = db.meta := by
  unfold processLogEnh
  cases ch.receiptAndBlock log with
  | error e => rfl
  | ok rb =>
    simp only
    split
    · rfl
    · cases ch.decodeEventLog log with
      | error e => exact meta_insertOrIgnoreLog _ _
      | ok decoded =>
        simp only
        split
        · split
          · exact meta_insertOrIgnoreLog _ _
          · rw [meta_insertOrIgnoreSwap, meta_insertOrIgnoreLog]
        · exact meta_insertOrIgnoreLog _ _

lemma meta_scanWindowEnh (ch : Chain) (lfail : LogRow → Bool)
    (sfail : SwapRow → Bool) (db : Db) (a b : Nat) :
    (scanWindowEnh ch lfail sfail db a b).fst.meta = db.meta := by
  unfold scanWindowEnh
  cases ch.getLogs a b with
  | error e => rfl
  | ok logs =>
    simp only
    suffices h : ∀ (acc : Db × Bool), acc.fst.meta = db.meta →
        (logs.foldl
          (fun acc log =>
            let r := processLogEnh ch lfail sfail acc.fst log
            (r.fst, acc.snd && r.snd)) acc).fst.meta = db.meta by
      exact h (db, true) rfl
    induction logs with
    | nil => intro acc hacc; exact hacc
    | cons l ls ih =>
      intro acc hacc
      refine ih _ ?_
      simp only
      rw [meta_processLogEnh]
      exact hacc

lemma requests_stepStd (ch : Chain) (lfail : LogRow → Bool) (startB latestB : Nat) :
    ∀ cur e st, (stepStd ch lfail startB latestB cur e st).fst.requests
      = st.requests ++ [(cur, e)] := by
  intro cur e st
  rfl

lemma requests_stepEnh (ch : Chain) (lfail : LogRow → Bool) (sfail : SwapRow → Bool)
    (startB latestB : Nat) :
    ∀ cur e st, (stepEnh ch lfail sfail startB latestB cur e st).fst.requests
      = st.requests ++ [(cur, e)] := by
  intro cur e st
  unfold stepEnh
  simp only
  split
  · split <;> rfl
  · rfl

lemma dbmeta_stepStd (ch : Chain) (lfail : LogRow → Bool) (startB latestB : Nat) :
    ∀ cur e st, (stepStd ch lfail startB latestB cur e st).fst.db.meta
      = st.db.meta := by
  intro cur e st
  show (scanWindowStd ch lfail st.db cur e).fst.meta = st.db.meta
  exact meta_scanWindowStd ch lfail st.db cur e

lemma dbmeta_stepEnh (ch : Chain) (lfail : LogRow → Bool) (sfail : SwapRow → Bool)
    (startB latestB : Nat) :
    ∀ cur e st, (stepEnh ch lfail sfail startB latestB cur e st).fst.db.meta
      = st.db.meta := by
  intro cur e st
  unfold stepEnh
  simp only
  split
  · split
    · exact meta_scanWindowEnh ch lfail sfail st.db cur e
    · exact meta_scanWindowEnh ch lfail sfail st.db cur e
  · exact meta_scanWindowEnh ch lfail sfail st.db cur e

/-! Window partition lemmas (claim C5). -/

lemma windows_tile {hi W : Nat} (hW : 1 ≤ W) :
    ∀ n lo, hi + 1 - lo ≤ n → lo ≤ hi →
      (windows lo hi W).flatMap (fun w => List.range' w.fst (w.snd + 1 - w.fst))
        = List.range' lo (hi + 1 - lo) := by
  intro n
  induction n with
  | zero =>
    intro lo hn hlo
    omega
  | succ n ih =>
    intro lo hn hlo
    rw [windows_step hW hlo]
    have he1 : lo ≤ endBlock lo hi W := endBlock_ge hW hlo
    have he2 : endBlock lo hi W ≤ hi := endBlock_le
    set e := endBlock lo hi W with hedef
    by_cases hfin : hi < e + 1
    · have hehi : e = hi := by omega
      rw [windows_exit hfin]
      simp only [List.flatMap_cons, List.flatMap_nil, List.append_nil]
      rw [hehi]
    · have hlo2 : e + 1 ≤ hi := by omega
      rw [List.flatMap_cons]
      rw [ih (e + 1) (by omega) hlo2]
      have happ := List.range'_append_1 lo (e + 1 - lo) (hi - e)
      rw [show lo + (e + 1 - lo) = e + 1 by omega] at happ
      rw [show hi + 1 - (e + 1) = hi - e by omega, happ]
      congr 1
      omega

lemma windows_ne_nil {lo hi W : Nat} (hW : 1 ≤ W) (hlo : lo ≤ hi) :
    windows lo hi W ≠ [] := by
  rw [windows_step hW hlo]
  simp

lemma windows_mem {hi W : Nat} (hW : 1 ≤ W) :
    ∀ n lo, hi + 1 - lo ≤ n → ∀ w ∈ windows lo hi W,
      lo ≤ w.fst ∧ w.fst ≤ w.snd ∧ w.snd ≤ hi := by
  intro n
  induction n with
  | zero =>
    intro lo hn w hw
    rw [windows_exit (by omega)] at hw
    simp at hw
  | succ n ih =>
    intro lo hn w hw
    by_cases hlo : hi < lo
    · rw [windows_exit hlo] at hw
      simp at hw
    · have hlo2 : lo ≤ hi := by omega
      rw [windows_step hW hlo2] at hw
      have he1 : lo ≤ endBlock lo hi W := endBlock_ge hW hlo2
      have he2 : endBlock lo hi W ≤ hi := endBlock_le
      rcases List.mem_cons.1 hw with h1 | h2
      · subst h1
        exact ⟨le_refl _, he1, he2⟩
      · have := ih (endBlock lo hi W + 1) (by omega) w h2
        exact ⟨by omega, this.2.1, this.2.2⟩

lemma windows_getLast {hi W : Nat} (hW : 1 ≤ W) :
    ∀ n lo, hi + 1 - lo ≤ n → lo ≤ hi →
      ∃ p, (windows lo hi W).getLast? = some p ∧ p.snd = hi := by
  intro n
  induction n with
  | zero =>
    intro lo hn hlo
    omega
  | succ n ih =>
    intro lo hn hlo
    rw [windows_step hW hlo]
    have he1 : lo ≤ endBlock lo hi W := endBlock_ge hW hlo
    have he2 : endBlock lo hi W ≤ hi := endBlock_le
    set e := endBlock lo hi W with hedef
    by_cases hfin : hi < e + 1
    · have hehi : e = hi := by omega
      rw [windows_exit hfin]
      exact ⟨(lo, e), rfl, hehi⟩
    · have hlo2 : e + 1 ≤ hi := by omega
      obtain ⟨p, hp, hphi⟩ := ih (e + 1) (by omega) hlo2
      refine ⟨p, ?_, hphi⟩
      rw [windows_step hW hlo2] at hp ⊢
      rw [List.getLast?_cons_cons]
      exact hp

lemma windows_chain {hi W : Nat} (hW : 1 ≤ W) :
    ∀ n lo, hi + 1 - lo ≤ n →
      List.Chain' (fun a b => b.fst = a.snd + 1 ∧ a.snd + 1 - a.fst = W)
        (windows lo hi W) := by
  intro n
  induction n with
  | zero =>
    intro lo hn
    rw [windows_exit (by omega)]
    exact List.chain'_nil
  | succ n ih =>
    intro lo hn
    by_cases hlo : hi < lo
    · rw [windows_exit hlo]
      exact List.chain'_nil
    · have hlo2 : lo ≤ hi := by omega
      rw [windows_step hW hlo2]
      have he1 : lo ≤ endBlock lo hi W := endBlock_ge hW hlo2
      have he2 : endBlock lo hi W ≤ hi := endBlock_le
      set e := endBlock lo hi W with hedef
      by_cases hfin : hi < e + 1
      · rw [windows_exit hfin]
        exact List.chain'_singleton _
      · have hlo3 : e + 1 ≤ hi := by omega
        have heW : e = lo + W - 1 := by
          have hx : e = endBlock lo hi W := hedef
          unfold endBlock at hx
          split at hx <;> omega
        rw [windows_step hW hlo3, List.chain'_cons]
        constructor
        · exact ⟨rfl, by omega⟩
        · rw [← windows_step hW hlo3]
          exact ih (e + 1) (by omega)

/-- C5: for a range `[L, H]` with `L ≤ H` and window size `W ≥ 1`, the windows
walked by the scan loop are ascending, adjacent (no gaps, no overlaps), tile
exactly `[L, H]`, every window but the last spans exactly `W` blocks, the last
window's upper bound is `H`, and a successful standard scan loop requests
precisely these windows. -/
theorem claim_C5_window_partition (L H W : Nat) (hLH : L ≤ H) (hW : 1 ≤ W) :
    ((windows L H W).flatMap (fun w => List.range' w.fst (w.snd + 1 - w.fst))
        = List.range' L (H + 1 - L))
    ∧ windows L H W ≠ []
    ∧ (∀ w ∈ windows L H W, L ≤ w.fst ∧ w.fst ≤ w.snd ∧ w.snd ≤ H)
    ∧ (∃ p, (windows L H W).getLast? = some p ∧ p.snd = H)
    ∧ List.Chain' (fun a b => b.fst = a.snd + 1 ∧ a.snd + 1 - a.fst = W)
        (windows L H W)
    ∧ (∀ ch lfail st,
        (scanLoopStd ch lfail L H W L st).snd = true →
        (scanLoopStd ch lfail L H W L st).fst.requests
          = st.requests ++ windows L H W) := by
  refine ⟨windows_tile hW (H + 1 - L) L (le_refl _) hLH,
    windows_ne_nil hW hLH,
    windows_mem hW (H + 1 - L) L (le_refl _),
    windows_getLast hW (H + 1 - L) L (le_refl _) hLH,
    windows_chain hW (H + 1 - L) L (le_refl _), ?_⟩
  intro ch lfail st hs
  exact whileScan_requests (stepStd ch lfail L H) hW
    (requests_stepStd ch lfail L H) (H + 1 - L) L st (le_refl _) hs

/-- Witness for C5 at a concrete range and window size: `[0, 2500]` with
window size `1000` splits into `[0,999], [1000,1999], [2000,2500]`. -/
theorem claim_C5_window_partition_witness :
    windows 0 2500 1000 = [(0, 999), (1000, 1999), (2000, 2500)]
    ∧ ((windows 0 2500 1000).flatMap
        (fun w => List.range' w.fst (w.snd + 1 - w.fst))
      = List.range' 0 2501) := by
  constructor
  · decide
  · exact (claim_C5_window_partition 0 2500 1000 (by decide) (by decide)).1

/-! Insertion lemmas shared by the idempotence and atomicity claims. -/

lemma logsHasTx_insert_self (db : Db) (r : LogRow) :
    logsHasTx (insertOrIgnoreLog db r) r.tx_hash = true := by
  unfold insertOrIgnoreLog
  by_cases h : logsHasTx db r.tx_hash = true
  · rw [if_pos h]
    exact h
  · rw [Bool.not_eq_true] at h
    rw [if_neg (by simp [h])]
    unfold logsHasTx
    simp

lemma logsHasTx_insert_mono (db : Db) (r : LogRow) {h : String}
    (hh : logsHasTx db h = true) :
    logsHasTx (insertOrIgnoreLog db r) h = true := by
  unfold insertOrIgnoreLog
  split
  · exact hh
  · unfold logsHasTx at hh ⊢
    simp only [List.any_append, Bool.or_eq_true]
    exact Or.inl hh

lemma logsHasTx_insertRows_mono : ∀ (rows : List LogRow) (db : Db) (h : String),
    logsHasTx db h = true → logsHasTx (insertRows db rows) h = true := by
  intro rows
  induction rows with
  | nil => intro db h hh; exact hh
  | cons r rs ih =>
    intro db h hh
    exact ih _ _ (logsHasTx_insert_mono db r hh)

lemma logsHasTx_insertRows_mem : ∀ (rows : List LogRow) (db : Db) (r : LogRow),
    r ∈ rows → logsHasTx (insertRows db rows) r.tx_hash = true := by
  intro rows
  induction rows with
  | nil => intro db r hr; simp at hr
  | cons r2 rs ih =>
    intro db r hr
    rcases List.mem_cons.1 hr with h1 | h2
    · subst h1
      exact logsHasTx_insertRows_mono rs _ _ (logsHasTx_insert_self db r)
    · exact ih _ _ h2

lemma insertRows_no_new : ∀ (rows : List LogRow) (db : Db),
    (∀ r ∈ rows, logsHasTx db r.tx_hash = true) → insertRows db rows = db := by
  intro rows
  induction rows with
  | nil => intro db _; rfl
  | cons r rs ih =>
    intro db h
    show insertRows (insertOrIgnoreLog db r) rs = db
    have hr : insertOrIgnoreLog db r = db := by
      unfold insertOrIgnoreLog
      rw [if_pos (h r (List.mem_cons_self r rs))]
    rw [hr]
    exact ih db (fun r2 hr2 => h r2 (List.mem_cons_of_mem r hr2))

/-- When no insert throws, the standard window body succeeds and persists
exactly the rows derived from the logs whose enrichment succeeded. -/
lemma scanWindowStd_nofail (ch : Chain) (db : Db) (a b : Nat)
    (logs : List RawLog) (hg : ch.getLogs a b = .ok logs) :
    scanWindowStd ch (fun _ => false) db a b
      = (insertRows db (logs.filterMap (deriveRow ch)), true) := by
  unfold scanWindowStd
  rw [hg]
  simp only
  by_cases h1 : logs.isEmpty = true
  · rw [if_pos h1]
    rw [List.isEmpty_iff.mp h1]
    rfl
  · rw [Bool.not_eq_true] at h1
    rw [if_neg (by simp [h1])]
    by_cases h2 : (logs.filterMap (deriveRow ch)).isEmpty = true
    · rw [if_pos h2, List.isEmpty_iff.mp h2]
      rfl
    · rw [Bool.not_eq_true] at h2
      rw [if_neg (by simp [h2])]
      unfold insertMany
      rw [insertRowsSeq_nofail]

/-- An empty database fixture. -/
def dbEmpty : Db := ⟨[], [], []⟩

/-! Claim C1: per-window insert atomicity. -/

/-- C1 (amended): in the standard variant each window's surviving rows are
inserted inside one `db.transaction`, all or nothing — on failure the
transaction rolls back and the database is unchanged, on success every row is
applied.  (The enhanced variant runs each insert individually with no
transaction; see the counterexample.) -/
theorem claim_C1_window_atomicity :
    (∀ ch lfail db a b,
      (scanWindowStd ch lfail db a b).snd = false →
      (scanWindowStd ch lfail db a b).fst = db)
    ∧ (∀ lfail db rows,
      (insertMany lfail db rows).snd = false →
      (insertMany lfail db rows).fst = db)
    ∧ (∀ lfail db rows,
      (insertMany lfail db rows).snd = true →
      (insertMany lfail db rows).fst = insertRows db rows) := by
  refine ⟨?_, fun lfail db rows h => insertMany_false h,
    fun lfail db rows h => insertMany_true h⟩
  intro ch lfail db a b h
  unfold scanWindowStd at h ⊢
  cases hg : ch.getLogs a b with
  | error e => rfl
  | ok logs =>
    rw [hg] at h
    simp only at h ⊢
    by_cases h1 : logs.isEmpty = true
    · rw [if_pos h1] at h
      simp at h
    · rw [Bool.not_eq_true] at h1
      rw [if_neg (by simp [h1])] at h ⊢
      by_cases h2 : (logs.filterMap (deriveRow ch)).isEmpty = true
      · rw [if_pos h2] at h
        simp at h
      · rw [Bool.not_eq_true] at h2
        rw [if_neg (by simp [h2])] at h ⊢
        exact insertMany_false h

def logC1a : RawLog := ⟨"0xa1", 5, "d1"⟩

def logC1b : RawLog := ⟨"0xb1", 5, "d2"⟩

def chC1 : Chain :=
  { blockNumber := 5
    getLogs := fun _ _ => .ok [logC1a, logC1b]
    receiptAndBlock := fun _ => .ok (⟨"0xab", 7⟩, ⟨9⟩)
    decodeEventLog := fun _ => .error () }

/-- Insert failure oracle used in the C1 counterexample: the prepared insert
throws exactly for the second log's row. -/
def lfailC1 : LogRow → Bool := fun r => r.tx_hash == "0xb1"

/-- C1 counterexample: in the enhanced variant, a window of two logs whose
second insert throws leaves the first log's row persisted even though the
window (and the scan) failed — partial rows from the failed window remain,
contradicting the all-or-nothing reading for that variant. -/
theorem claim_C1_counterexample :
    (scanLogsEnh chC1 lfailC1 (fun _ => false) 1000 dbEmpty false).snd = false
    ∧ (scanLogsEnh chC1 lfailC1 (fun _ => false) 1000 dbEmpty false).fst.db.logs
      = [⟨"0xa1", 5, "0xab", "7", 9⟩] := by
  decide

def chC1w : Chain :=
  { blockNumber := 0
    getLogs := fun _ _ => .ok [logC1a]
    receiptAndBlock := fun _ => .ok (⟨"0xab", 7⟩, ⟨9⟩)
    decodeEventLog := fun _ => .error () }

/-- Witness for C1: at a concrete window whose insert throws, the standard
variant leaves the database unchanged. -/
theorem claim_C1_window_atomicity_witness :
    (scanWindowStd chC1w (fun _ => true) dbEmpty 0 0).fst = dbEmpty :=
  claim_C1_window_atomicity.1 chC1w (fun _ => true) dbEmpty 0 0 (by decide)

/-! Claim C3: per-log enrichment failure tolerance. -/

/-- C3 (amended): in the standard variant a per-log enrichment failure yields
`null` for that log only — the failing log contributes no row, the window does
not abort, and the rows of all other logs still persist.  (In the enhanced
variant the enrichment lookups are not guarded per log and a single failure
aborts the scan; see the counterexample.) -/
theorem claim_C3_enrichment_skip :
    (∀ ch log, ch.receiptAndBlock log = .error () → deriveRow ch log = none)
    ∧ (∀ ch db a b logs, ch.getLogs a b = .ok logs →
        scanWindowStd ch (fun _ => false) db a b
          = (insertRows db (logs.filterMap (deriveRow ch)), true)) := by
  constructor
  · intro ch log h
    unfold deriveRow
    rw [h]
  · intro ch db a b logs hg
    exact scanWindowStd_nofail ch db a b logs hg

def logC3a : RawLog := ⟨"0xa3", 2, "d1"⟩

def logC3b : RawLog := ⟨"0xb3", 2, "d2"⟩

def chC3 : Chain :=
  { blockNumber := 2
    getLogs := fun _ _ => .ok [logC3a, logC3b]
    receiptAndBlock := fun l => if l.transactionHash == "0xb3" then .error ()
      else .ok (⟨"0xab", 7⟩, ⟨9⟩)
    decodeEventLog := fun _ => .error () }

/-- C3 counterexample: in the enhanced variant a single log's enrichment
failure (here the second log's receipt lookup) aborts the whole scan — the
result flag is `false` and no checkpoint is written — contradicting the claim
that an enrichment failure never aborts the window or the scan. -/
theorem claim_C3_counterexample :
    (scanLogsEnh chC3 (fun _ => false) (fun _ => false) 1000 dbEmpty false).snd
      = false := by
  decide

/-- Witness for C3: a window whose second log fails enrichment still succeeds
in the standard variant, persisting exactly the first log's row. -/
theorem claim_C3_enrichment_skip_witness :
    scanWindowStd chC3 (fun _ => false) dbEmpty 0 2
      = (⟨[⟨"0xa3", 2, "0xab", "7", 9⟩], [], []⟩, true) := by
  have h := claim_C3_enrichment_skip.2 chC3 dbEmpty 0 2 [logC3a, logC3b] rfl
  rw [h]
  decide

/-! Claim C4: idempotence of re-scanning an already persisted range. -/

/-- C4: an insert whose `tx_hash` already exists is silently ignored and
leaves the stored row unchanged, and re-running the standard window body over
a range whose rows are already persisted succeeds and inserts zero new
rows. -/
theorem claim_C4_idempotence :
    (∀ db r, logsHasTx db r.tx_hash = true → insertOrIgnoreLog db r = db)
    ∧ (∀ ch db a b logs, ch.getLogs a b = .ok logs →
        scanWindowStd ch (fun _ => false)
            ((scanWindowStd ch (fun _ => false) db a b).fst) a b
          = ((scanWindowStd ch (fun _ => false) db a b).fst, true)) := by
  constructor
  · intro db r h
    unfold insertOrIgnoreLog
    rw [if_pos h]
  · intro ch db a b logs hg
    rw [scanWindowStd_nofail ch db a b logs hg]
    rw [scanWindowStd_nofail ch _ a b logs hg]
    refine congrArg (fun d => (d, true)) ?_
    exact insertRows_no_new _ _
      (fun r hr => logsHasTx_insertRows_mem _ db r hr)

def chC4 : Chain :=
  { blockNumber := 2
    getLogs := fun _ _ => .ok [⟨"0xa4", 1, "d"⟩]
    receiptAndBlock := fun _ => .ok (⟨"0xab", 7⟩, ⟨9⟩)
    decodeEventLog := fun _ => .error () }

/-- Witness for C4: re-running a concrete window over its own output changes
nothing. -/
theorem claim_C4_idempotence_witness :
    scanWindowStd chC4 (fun _ => false)
        ((scanWindowStd chC4 (fun _ => false) dbEmpty 0 2).fst) 0 2
      = ((scanWindowStd chC4 (fun _ => false) dbEmpty 0 2).fst, true) :=
  claim_C4_idempotence.2 chC4 dbEmpty 0 2 [⟨"0xa4", 1, "d"⟩] rfl

/-! Claim C9: decoder totality. -/

/-- C9: a decode exception (topic signature mismatch or malformed payload) is
treated as "unrecognized": the log's processing completes normally (no
exception escapes the scan loop), its TransactionRecord is still inserted, and
no swap row is produced. -/
theorem claim_C9_decoder_total :
    ∀ ch lfail sfail db log receipt block,
      ch.receiptAndBlock log = .ok (receipt, block) →
      lfail (mkLogRow log receipt block) = false →
      ch.decodeEventLog log = .error () →
      processLogEnh ch lfail sfail db log
        = (insertOrIgnoreLog db (mkLogRow log receipt block), true) := by
  intro ch lfail sfail db log receipt block hrb hlf hdec
  unfold processLogEnh
  rw [hrb]
  simp only
  rw [if_neg (by simp [hlf]), hdec]

def chC9 : Chain :=
  { blockNumber := 1
    getLogs := fun _ _ => .ok [⟨"0xa9", 1, "garbled"⟩]
    receiptAndBlock := fun _ => .ok (⟨"0xab", 7⟩, ⟨9⟩)
    decodeEventLog := fun _ => .error () }

/-- Witness for C9 at a concrete malformed log. -/
theorem claim_C9_decoder_total_witness :
    processLogEnh chC9 (fun _ => false) (fun _ => false) dbEmpty ⟨"0xa9", 1, "garbled"⟩
      = (insertOrIgnoreLog dbEmpty (mkLogRow ⟨"0xa9", 1, "garbled"⟩ ⟨"0xab", 7⟩ ⟨9⟩),
          true) :=
  claim_C9_decoder_total chC9 (fun _ => false) (fun _ => false) dbEmpty
    ⟨"0xa9", 1, "garbled"⟩ ⟨"0xab", 7⟩ ⟨9⟩ rfl (by decide) rfl

/-! Claim C8: one swap row per decoded event. -/

/-- C8 (amended): every successfully decoded `Swap` event leads to one insert
attempt into `swap_events`, but `tx_hash` is the table's primary key and the
insert is `OR IGNORE`, so at most one row per transaction hash persists: a
`Swap` event whose transaction hash already has a row is silently dropped. -/
theorem claim_C8_swap_rows :
    (∀ db r, swapsHasTx db r.tx_hash = true → insertOrIgnoreSwap db r = db)
    ∧ (∀ (db : Db) (r : SwapRow), swapsHasTx db r.tx_hash = false →
        (insertOrIgnoreSwap db r).swaps = db.swaps ++ [r])
    ∧ (∀ ch lfail sfail db log receipt block decoded,
        ch.receiptAndBlock log = .ok (receipt, block) →
        lfail (mkLogRow log receipt block) = false →
        ch.decodeEventLog log = .ok decoded →
        decoded.eventName = "Swap" →
        processLogEnh ch lfail sfail db log
          = (let db2 := insertOrIgnoreLog db (mkLogRow log receipt block)
             let srow := mkSwapRow log block decoded.args
             if sfail srow then (db2, false)
             else (insertOrIgnoreSwap db2 srow, true))) := by
  refine ⟨?_, ?_, ?_⟩
  · intro db r h
    unfold insertOrIgnoreSwap
    rw [if_pos h]
  · intro db r h
    unfold insertOrIgnoreSwap
    rw [if_neg (by simp [h])]
  · intro ch lfail sfail db log receipt block decoded hrb hlf hdec hname
    unfold processLogEnh
    rw [hrb]
    simp only
    rw [if_neg (by simp [hlf]), hdec]
    simp only
    rw [if_pos (by simp [hname])]

def argsC8 : DecodedArgs := ⟨"0xse", 1, 2, "0xti", "0xto", "0xde"⟩

def chC8 : Chain :=
  { blockNumber := 3
    getLogs := fun _ _ => .ok [⟨"0xs1", 3, "p1"⟩, ⟨"0xs1", 3, "p2"⟩]
    receiptAndBlock := fun _ => .ok (⟨"0xab", 7⟩, ⟨9⟩)
    decodeEventLog := fun _ => .ok ⟨"Swap", argsC8⟩ }

/-- C8 counterexample: a window with two logs of the SAME transaction hash,
both decoding to `Swap`, processes cleanly but persists only ONE
`swap_events` row — the claim's count (rows added = logs decoding to Swap,
here 2) fails when several Swap events share a transaction hash. -/
theorem claim_C8_counterexample :
    (scanWindowEnh chC8 (fun _ => false) (fun _ => false) dbEmpty 0 3).snd = true
    ∧ ((scanWindowEnh chC8 (fun _ => false) (fun _ => false) dbEmpty 0 3).fst.swaps).length
      = 1
    ∧ ([⟨"0xs1", 3, "p1"⟩, ⟨"0xs1", 3, "p2"⟩] : List RawLog).countP
        (fun l => match chC8.decodeEventLog l with
          | .ok d => d.eventName == "Swap"
          | .error _ => false) = 2 := by
  decide

/-- Witness for C8: a fresh Swap event's row is appended. -/
theorem claim_C8_swap_rows_witness :
    (insertOrIgnoreSwap dbEmpty ⟨"0xs1", 3, "0xse", "1", "2", "0xti", "0xto", "0xde", 9⟩).swaps
      = [⟨"0xs1", 3, "0xse", "1", "2", "0xti", "0xto", "0xde", 9⟩] :=
  claim_C8_swap_rows.2.1 dbEmpty
    ⟨"0xs1", 3, "0xse", "1", "2", "0xti", "0xto", "0xde", 9⟩ (by decide)

/-! Scan-level lemmas and claims C2, C6, C7, C10. -/

lemma getMeta_setMeta (db : Db) (k v : String) :
    getMeta (setMeta db k v) k = some v := by
  unfold getMeta setMeta
  rw [List.find?_cons_of_pos _ (by simp)]
  rfl

lemma scanLoopStd_meta (ch : Chain) (lfail : LogRow → Bool)
    (startB latestB W cur : Nat) (st : ScanState) :
    (scanLoopStd ch lfail startB latestB W cur st).fst.db.meta = st.db.meta :=
  whileScan_dbmeta _ (dbmeta_stepStd ch lfail startB latestB) _ _ _

lemma scanLoopEnh_meta (ch : Chain) (lfail : LogRow → Bool) (sfail : SwapRow → Bool)
    (startB latestB W cur : Nat) (st : ScanState) :
    (scanLoopEnh ch lfail sfail startB latestB W cur st).fst.db.meta = st.db.meta :=
  whileScan_dbmeta _ (dbmeta_stepEnh ch lfail sfail startB latestB) _ _ _

/-- C2: when a scan reaches its loop (the resolved start is at most the head)
and every window succeeds, the checkpoint is written exactly once — the final
`meta` table holds one `lastScannedBlock` row whose value is the head read at
scan start, all other rows untouched; and when any window fails the scan
aborts with the `meta` table completely unchanged. -/
theorem claim_C2_checkpoint_once (ch : Chain) (lfail : LogRow → Bool) (W : Nat)
    (db : Db) (inc : Bool) :
    ((scanLogsStd ch lfail W db inc).snd = true →
      (scanLogsStd ch lfail W db inc).fst.requests ≠ [] →
      getMeta (scanLogsStd ch lfail W db inc).fst.db "lastScannedBlock"
          = some (Nat.repr ch.blockNumber)
        ∧ (scanLogsStd ch lfail W db inc).fst.db.meta
          = ("lastScannedBlock", Nat.repr ch.blockNumber)
            :: db.meta.filter (fun kv => kv.fst != "lastScannedBlock"))
    ∧ ((scanLogsStd ch lfail W db inc).snd = false →
      (scanLogsStd ch lfail W db inc).fst.db.meta = db.meta) := by
  constructor
  · intro hs hreq
    simp only [scanLogsStd] at hs hreq ⊢
    cases hrs : resolveStart db inc with
    | none =>
      rw [hrs] at hs
      simp at hs
    | some s0 =>
      rw [hrs] at hs hreq
      simp only at hs hreq ⊢
      by_cases hlt : ch.blockNumber < s0
      · rw [if_pos hlt] at hreq
        simp at hreq
      · rw [if_neg hlt] at hs hreq ⊢
        by_cases hr2 : (scanLoopStd ch lfail s0 ch.blockNumber W s0
            { db := db, requests := [] }).snd = true
        · rw [if_pos hr2]
          constructor
          · exact getMeta_setMeta _ _ _
          · show (setMeta _ _ _).meta = _
            unfold setMeta
            rw [scanLoopStd_meta]
        · rw [if_neg hr2] at hs
          exact absurd hs hr2
  · intro hs
    simp only [scanLogsStd] at hs ⊢
    cases hrs : resolveStart db inc with
    | none => rfl
    | some s0 =>
      rw [hrs] at hs
      simp only at hs ⊢
      by_cases hlt : ch.blockNumber < s0
      · rw [if_pos hlt] at hs
        simp at hs
      · rw [if_neg hlt] at hs ⊢
        by_cases hr2 : (scanLoopStd ch lfail s0 ch.blockNumber W s0
            { db := db, requests := [] }).snd = true
        · rw [if_pos hr2] at hs
          simp at hs
        · rw [if_neg hr2]
          exact scanLoopStd_meta _ _ _ _ _ _ _

def chC2 : Chain :=
  { blockNumber := 0
    getLogs := fun _ _ => .ok []
    receiptAndBlock := fun _ => .error ()
    decodeEventLog := fun _ => .error () }

/-- Witness for C2: a successful one-window scan writes the checkpoint row
`("lastScannedBlock", "0")` exactly once. -/
theorem claim_C2_checkpoint_once_witness :
    getMeta (scanLogsStd chC2 (fun _ => false) 1000 dbEmpty false).fst.db
        "lastScannedBlock" = some (Nat.repr chC2.blockNumber)
    ∧ (scanLogsStd chC2 (fun _ => false) 1000 dbEmpty false).fst.db.meta
      = ("lastScannedBlock", Nat.repr chC2.blockNumber)
        :: dbEmpty.meta.filter (fun kv => kv.fst != "lastScannedBlock") :=
  (claim_C2_checkpoint_once chC2 (fun _ => false) 1000 dbEmpty false).1
    (by decide) (by decide)

/-- C6: an incremental scan with persisted checkpoint `N` requests exactly the
windows covering `[N+1, head]`; when `N+1 > head` it performs zero fetch
calls, changes nothing and reports success ("up to date"); and when no
checkpoint row exists, incremental mode behaves exactly like a full scan from
block zero. -/
theorem claim_C6_resume (ch : Chain) (lfail : LogRow → Bool) (W : Nat)
    (db : Db) (N : Nat) (s : String) :
    (getMeta db "lastScannedBlock" = some s → s.toNat? = some N →
      ch.blockNumber < N + 1 →
      scanLogsStd ch lfail W db true = ({ db := db, requests := [] }, true))
    ∧ (getMeta db "lastScannedBlock" = none →
      scanLogsStd ch lfail W db true = scanLogsStd ch lfail W db false)
    ∧ (1 ≤ W → getMeta db "lastScannedBlock" = some s → s.toNat? = some N →
      N + 1 ≤ ch.blockNumber →
      (scanLogsStd ch lfail W db true).snd = true →
      (scanLogsStd ch lfail W db true).fst.requests
        = windows (N + 1) ch.blockNumber W) := by
  refine ⟨?_, ?_, ?_⟩
  · intro hg hN hlt
    have h1 : resolveStart db true = some (N + 1) := by
      unfold resolveStart
      rw [if_pos rfl, hg]
      show Option.map (fun n => n + 1) s.toNat? = some (N + 1)
      rw [hN]
      rfl
    simp only [scanLogsStd]
    rw [h1]
    simp only
    rw [if_pos hlt]
  · intro hg
    have h1 : resolveStart db true = some 0 := by
      unfold resolveStart
      rw [if_pos rfl, hg]
    have h2 : resolveStart db false = some 0 := rfl
    simp only [scanLogsStd]
    rw [h1, h2]
  · intro hW hg hN hle hs
    have h1 : resolveStart db true = some (N + 1) := by
      unfold resolveStart
      rw [if_pos rfl, hg]
      show Option.map (fun n => n + 1) s.toNat? = some (N + 1)
      rw [hN]
      rfl
    simp only [scanLogsStd] at hs ⊢
    rw [h1] at hs ⊢
    simp only at hs ⊢
    rw [if_neg (by omega : ¬ch.blockNumber < N + 1)] at hs ⊢
    by_cases hr2 : (scanLoopStd ch lfail (N + 1) ch.blockNumber W (N + 1)
        { db := db, requests := [] }).snd = true
    · rw [if_pos hr2]
      show (scanLoopStd ch lfail (N + 1) ch.blockNumber W (N + 1)
          { db := db, requests := [] }).fst.requests = _
      have h2 := whileScan_requests (stepStd ch lfail (N + 1) ch.blockNumber) hW
        (requests_stepStd ch lfail (N + 1) ch.blockNumber)
        (ch.blockNumber + 1 - (N + 1)) (N + 1) { db := db, requests := [] }
        (le_refl _) hr2
      rw [List.nil_append] at h2
      exact h2
    · rw [if_neg hr2] at hs
      exact absurd hs hr2

def dbC6 : Db := ⟨[], [], [("lastScannedBlock", Nat.repr 5)]⟩

def chC6 : Chain :=
  { blockNumber := 5
    getLogs := fun _ _ => .ok []
    receiptAndBlock := fun _ => .error ()
    decodeEventLog := fun _ => .error () }

/-- Witness for C6: with checkpoint 5 and head 5, the incremental scan makes
zero fetch requests, changes nothing, and succeeds. -/
theorem claim_C6_resume_witness :
    scanLogsStd chC6 (fun _ => false) 1000 dbC6 true
      = ({ db := dbC6, requests := [] }, true) :=
  (claim_C6_resume chC6 (fun _ => false) 1000 dbC6 5 (Nat.repr 5)).1
    rfl (toNat?_repr 5) (by decide)

/-- C7 (amended): the persisted checkpoint is monotonically non-decreasing
across successful INCREMENTAL scans against arbitrary reported heads; a full
scan instead overwrites the checkpoint with the head read at scan start, so it
decreases the checkpoint whenever that head is below the stored value (see the
counterexample). -/
theorem claim_C7_checkpoint_monotone (ch : Chain) (lfail : LogRow → Bool)
    (W : Nat) (db : Db) (v : Nat) :
    (checkpointVal db = some v →
      (scanLogsStd ch lfail W db true).snd = true →
      ∃ v2, checkpointVal (scanLogsStd ch lfail W db true).fst.db = some v2
        ∧ v ≤ v2)
    ∧ ((scanLogsStd ch lfail W db false).snd = true →
      checkpointVal (scanLogsStd ch lfail W db false).fst.db
        = some ch.blockNumber) := by
  constructor
  · intro hcv hs
    unfold checkpointVal at hcv
    cases hg : getMeta db "lastScannedBlock" with
    | none =>
      rw [hg] at hcv
      simp at hcv
    | some s =>
      rw [hg] at hcv
      simp only at hcv
      have h1 : resolveStart db true = some (v + 1) := by
        unfold resolveStart
        rw [if_pos rfl, hg]
        show Option.map (fun n => n + 1) s.toNat? = some (v + 1)
        rw [hcv]
        rfl
      simp only [scanLogsStd] at hs ⊢
      rw [h1] at hs ⊢
      simp only at hs ⊢
      by_cases hlt : ch.blockNumber < v + 1
      · rw [if_pos hlt]
        refine ⟨v, ?_, le_refl v⟩
        show checkpointVal db = some v
        unfold checkpointVal
        rw [hg]
        exact hcv
      · rw [if_neg hlt] at hs ⊢
        by_cases hr2 : (scanLoopStd ch lfail (v + 1) ch.blockNumber W (v + 1)
            { db := db, requests := [] }).snd = true
        · rw [if_pos hr2]
          refine ⟨ch.blockNumber, ?_, by omega⟩
          show checkpointVal (setMeta _ "lastScannedBlock" (Nat.repr ch.blockNumber))
            = some ch.blockNumber
          unfold checkpointVal
          rw [getMeta_setMeta]
          exact toNat?_repr _
        · rw [if_neg hr2] at hs
          exact absurd hs hr2
  · intro hs
    have h1 : resolveStart db false = some 0 := rfl
    simp only [scanLogsStd] at hs ⊢
    rw [h1] at hs ⊢
    simp only at hs ⊢
    rw [if_neg (by omega : ¬ch.blockNumber < 0)] at hs ⊢
    by_cases hr2 : (scanLoopStd ch lfail 0 ch.blockNumber W 0
        { db := db, requests := [] }).snd = true
    · rw [if_pos hr2]
      show checkpointVal (setMeta _ "lastScannedBlock" (Nat.repr ch.blockNumber))
        = some ch.blockNumber
      unfold checkpointVal
      rw [getMeta_setMeta]
      exact toNat?_repr _
    · rw [if_neg hr2] at hs
      exact absurd hs hr2

def dbC7 : Db := ⟨[], [], [("lastScannedBlock", "5")]⟩

def chC7 : Chain :=
  { blockNumber := 3
    getLogs := fun _ _ => .ok []
    receiptAndBlock := fun _ => .error ()
    decodeEventLog := fun _ => .error () }

/-- C7 counterexample: with persisted checkpoint 5, a successful FULL scan
against a reported head of 3 overwrites the checkpoint with 3 — the sequence
of successful scans (whatever wrote 5; then this full scan) has a strictly
decreasing checkpoint, refuting monotonicity over arbitrary mixes of scan
modes and heads. -/
theorem claim_C7_counterexample :
    (scanLogsStd chC7 (fun _ => false) 1000 dbC7 false).snd = true
    ∧ checkpointVal dbC7 = some 5
    ∧ checkpointVal (scanLogsStd chC7 (fun _ => false) 1000 dbC7 false).fst.db
      = some 3
    ∧ ¬(5 : Nat) ≤ 3 := by
  have hscan : scanLogsStd chC7 (fun _ => false) 1000 dbC7 false
      = ({ db := ⟨[], [], [("lastScannedBlock", "3")]⟩,
           requests := [(0, 3)] }, true) := by
    decide
  refine ⟨by rw [hscan], ?_, ?_, by omega⟩
  · show ("5" : String).toNat? = some 5
    have h5 : Nat.repr 5 = "5" := rfl
    rw [← h5]
    exact toNat?_repr 5
  · rw [hscan]
    show ("3" : String).toNat? = some 3
    have h3 : Nat.repr 3 = "3" := rfl
    rw [← h3]
    exact toNat?_repr 3

def dbC7w : Db := ⟨[], [], [("lastScannedBlock", Nat.repr 2)]⟩

def chC7w : Chain :=
  { blockNumber := 5
    getLogs := fun _ _ => .ok []
    receiptAndBlock := fun _ => .error ()
    decodeEventLog := fun _ => .error () }

/-- Witness for C7: a successful incremental scan from checkpoint 2 against
head 5 yields a checkpoint at least 2. -/
theorem claim_C7_checkpoint_monotone_witness :
    ∃ v2, checkpointVal
        (scanLogsStd chC7w (fun _ => false) 1000 dbC7w true).fst.db = some v2
      ∧ 2 ≤ v2 := by
  have hcv : checkpointVal dbC7w = some 2 := by
    show (Nat.repr 2).toNat? = some 2
    exact toNat?_repr 2
  have h1 : resolveStart dbC7w true = some 3 := by
    show ((Nat.repr 2).toNat?).map (fun n => n + 1) = some 3
    rw [toNat?_repr]
    rfl
  have hs : (scanLogsStd chC7w (fun _ => false) 1000 dbC7w true).snd = true := by
    simp only [scanLogsStd]
    rw [h1]
    decide
  exact (claim_C7_checkpoint_monotone chC7w (fun _ => false) 1000 dbC7w 2).1 hcv hs

/-- C10: in the enhanced variant, a scan whose resolved lower bound equals the
head (for example an incremental run with checkpoint `head - 1`) computes the
per-window progress as a bigint division by `latestBlock - startBlock = 0`,
which throws — so after the window's rows were already inserted the scan
aborts without persisting the checkpoint; the standard variant guards the zero
denominator explicitly (reporting 100) and succeeds on the same input. -/
theorem claim_C10_progress_div_zero (ch : Chain) (lfail : LogRow → Bool)
    (sfail : SwapRow → Bool) (W : Nat) (db : Db) (N : Nat) (s : String)
    (hW : 1 ≤ W)
    (hg : getMeta db "lastScannedBlock" = some s)
    (hN : s.toNat? = some N)
    (hhead : ch.blockNumber = N + 1)
    (hwin : (scanWindowEnh ch lfail sfail db (N + 1) (N + 1)).snd = true) :
    scanLogsEnh ch lfail sfail W db true
      = ({ db := (scanWindowEnh ch lfail sfail db (N + 1) (N + 1)).fst,
           requests := [(N + 1, N + 1)] }, false)
    ∧ (scanLogsEnh ch lfail sfail W db true).fst.db.meta = db.meta
    ∧ ((scanWindowStd ch lfail db (N + 1) (N + 1)).snd = true →
        (scanLogsStd ch lfail W db true).snd = true)
    ∧ progressStd (N + 1) (N + 1) (N + 1) = 100 := by
  have h1 : resolveStart db true = some (N + 1) := by
    unfold resolveStart
    rw [if_pos rfl, hg]
    show Option.map (fun n => n + 1) s.toNat? = some (N + 1)
    rw [hN]
    rfl
  have he : endBlock (N + 1) (N + 1) W = N + 1 := by
    unfold endBlock
    rw [if_pos (by omega)]
  have hstep : stepEnh ch lfail sfail (N + 1) (N + 1) (N + 1) (N + 1)
      { db := db, requests := [] }
      = ({ db := (scanWindowEnh ch lfail sfail db (N + 1) (N + 1)).fst,
           requests := [(N + 1, N + 1)] }, false) := by
    unfold stepEnh bigintDiv
    simp [hwin, Nat.sub_self]
  have hloop : scanLoopEnh ch lfail sfail (N + 1) (N + 1) W (N + 1)
      { db := db, requests := [] }
      = ({ db := (scanWindowEnh ch lfail sfail db (N + 1) (N + 1)).fst,
           requests := [(N + 1, N + 1)] }, false) := by
    unfold scanLoopEnh
    rw [whileScanTop_step_false _ _ (le_refl _) (by rw [he, hstep])]
    rw [he, hstep]
  have hmain : scanLogsEnh ch lfail sfail W db true
      = ({ db := (scanWindowEnh ch lfail sfail db (N + 1) (N + 1)).fst,
           requests := [(N + 1, N + 1)] }, false) := by
    simp only [scanLogsEnh]
    rw [h1]
    simp only
    rw [hhead, if_neg (by omega : ¬N + 1 < N + 1), hloop]
    rfl
  refine ⟨hmain, ?_, ?_, ?_⟩
  · rw [hmain]
    exact meta_scanWindowEnh ch lfail sfail db (N + 1) (N + 1)
  · intro hwinstd
    simp only [scanLogsStd]
    rw [h1]
    simp only
    rw [hhead, if_neg (by omega : ¬N + 1 < N + 1)]
    have hstep2 : (stepStd ch lfail (N + 1) (N + 1) (N + 1)
        (endBlock (N + 1) (N + 1) W) { db := db, requests := [] }).snd = true := by
      rw [he]
      exact hwinstd
    unfold scanLoopStd
    rw [whileScanTop_step_true _ _ hW (le_refl _) hstep2]
    rw [he]
    rw [show (N + 1) + 1 - ((N + 1) + 1) = 0 from by omega]
    rfl
  · unfold progressStd
    simp

def dbC10 : Db := ⟨[], [], [("lastScannedBlock", Nat.repr 4)]⟩

def chC10 : Chain :=
  { blockNumber := 5
    getLogs := fun _ _ => .ok []
    receiptAndBlock := fun _ => .error ()
    decodeEventLog := fun _ => .error () }

/-- Witness for C10: checkpoint 4, head 5 — the enhanced scan aborts on the
zero-denominator progress division while the standard scan succeeds. -/
theorem claim_C10_progress_div_zero_witness :
    scanLogsEnh chC10 (fun _ => false) (fun _ => false) 1000 dbC10 true
      = ({ db := (scanWindowEnh chC10 (fun _ => false) (fun _ => false)
              dbC10 5 5).fst,
           requests := [(5, 5)] }, false)
    ∧ (scanLogsStd chC10 (fun _ => false) 1000 dbC10 true).snd = true := by
  have h := claim_C10_progress_div_zero chC10 (fun _ => false) (fun _ => false)
    1000 dbC10 4 (Nat.repr 4) (by decide) rfl (toNat?_repr 4) rfl (by decide)
  exact ⟨h.1, h.2.2.1 (by decide)⟩

end CitreaAnalytics
